import Mathlib

/-!
Verification of the outbound post-composition and publishing pipeline of the
random_shosha_bot Google Apps Script source (single-file TypeScript, complete
revision with hashtag facets, OGP blob upload and language-aware hashtags).

Modelling conventions for the shallow embedding:

* JS strings are modelled as `List Char` (sequences of Unicode codepoints).
* `Utilities.newBlob(s).getBytes().length` is the UTF-8 byte length of `s`,
  modelled by `utf8Len` (the length of the UTF-8 encoding `utf8Encode`).
* Every HTTP call's outcome is passed in explicitly (`HttpOutcome`).  With
  `muteHttpExceptions: true` non-success statuses arrive as ordinary
  responses; a thrown transport error is the `exn` constructor.  `try/catch`
  blocks are modelled by matching on `exn` and producing the catch-branch
  value, so every embedded function is total.
* JSON response bodies are modelled as already-parsed structures
  (`SessionBody`, `UploadBody`, ...).
* The HMAC-SHA1 + base64 step of the OAuth signature is an opaque external
  primitive (`Utilities.computeHmacSignature`); it is abstracted as a
  function parameter `sign`.  The string-building parts are embedded fully.
* `Math.floor(Date.now()/1000)`, `Utilities.getUuid()` and
  `new Date().toISOString()` are impure inputs; they are passed as explicit
  parameters (`timestamp`, `nonce`, `now`).
-/

/-- Abbreviation turning a Lean string literal into the `List Char` model of a JS string. -/
def cs (s : String) : List Char := s.toList

/-- UTF-8 encoding of a single Unicode codepoint, as a list of byte values. -/
def utf8Bytes (c : Char) : List Nat :=
  let v := c.toNat
  if v < 128 then [v]
  else if v < 2048 then [192 + v / 64, 128 + v % 64]
  else if v < 65536 then [224 + v / 4096, 128 + v / 64 % 64, 128 + v % 64]
  else [240 + v / 262144, 128 + v / 4096 % 64, 128 + v / 64 % 64, 128 + v % 64]

/-- UTF-8 encoding of a JS string (`Utilities.newBlob(s).getBytes()`). -/
def utf8Encode (s : List Char) : List Nat := s.flatMap utf8Bytes

/-- UTF-8 byte length of a JS string (`Utilities.newBlob(s).getBytes().length`). -/
def utf8Len (s : List Char) : Nat := (utf8Encode s).length

/-- Decimal digit character, for JS number-to-string interpolation. -/
def decDigit : Nat → Char
  | 0 => '0' | 1 => '1' | 2 => '2' | 3 => '3' | 4 => '4'
  | 5 => '5' | 6 => '6' | 7 => '7' | 8 => '8' | _ => '9'

/-- Fuel-driven loop producing the decimal digits of `n` in front of `acc`. -/
def natToCharsAux : Nat → Nat → List Char → List Char
  | 0, _, acc => acc
  | fuel + 1, n, acc =>
    if n < 10 then decDigit n :: acc
    else natToCharsAux fuel (n / 10) (decDigit (n % 10) :: acc)

/-- Decimal rendering of a natural number, modelling JS template interpolation
of a non-negative integer such as the `sentence_id`. -/
def natToChars (n : Nat) : List Char := natToCharsAux (n + 1) n []

/-- Numeric value of a decimal digit string, used to invert `natToChars`. -/
def decVal (l : List Char) : Nat := l.foldl (fun a c => a * 10 + (c.toNat - 48)) 0

/-- Characters that JS `encodeURIComponent` leaves unencoded: ASCII
alphanumerics plus `- . _ ~ ! ' ( ) *`. -/
def isUriUnescaped (c : Char) : Bool :=
  let v := c.toNat
  (48 ≤ v && v ≤ 57) || (65 ≤ v && v ≤ 90) || (97 ≤ v && v ≤ 122) ||
  v == 45 || v == 46 || v == 95 || v == 126 ||
  v == 33 || v == 39 || v == 40 || v == 41 || v == 42

/-- Uppercase hexadecimal digit. -/
def hexDigit : Nat → Char
  | 0 => '0' | 1 => '1' | 2 => '2' | 3 => '3' | 4 => '4' | 5 => '5' | 6 => '6' | 7 => '7'
  | 8 => '8' | 9 => '9' | 10 => 'A' | 11 => 'B' | 12 => 'C' | 13 => 'D' | 14 => 'E' | _ => 'F'

/-- Percent-escape a byte sequence: each byte becomes `%XY` with uppercase hex. -/
def percentTriples (bs : List Nat) : List Char :=
  bs.flatMap (fun b => ['%', hexDigit (b / 16), hexDigit (b % 16)])

/-- Encoding of one character under JS `encodeURIComponent`. -/
def encodeChar (c : Char) : List Char :=
  if isUriUnescaped c then [c] else percentTriples (utf8Bytes c)

/-- JS `encodeURIComponent`. -/
def encodeURIComponent (s : List Char) : List Char := s.flatMap encodeChar

/-- Value of an uppercase hexadecimal digit character. -/
def hexVal (c : Char) : Option Nat :=
  if 48 ≤ c.toNat ∧ c.toNat ≤ 57 then some (c.toNat - 48)
  else if 65 ≤ c.toNat ∧ c.toNat ≤ 70 then some (c.toNat - 55)
  else none

/-- Inverse of percent-encoding down to a byte sequence: a `%XY` triple
becomes the byte `XY`; any other character stands for its own codepoint. -/
def parsePercent : List Char → Option (List Nat)
  | [] => some []
  | '%' :: h1 :: h2 :: rest =>
    match hexVal h1, hexVal h2 with
    | some a, some b => (parsePercent rest).map (fun t => (16 * a + b) :: t)
    | _, _ => none
  | '%' :: _ => none
  | c :: l => (parsePercent l).map (fun t => c.toNat :: t)

/-- Decoder for one UTF-8-encoded codepoint at the head of a byte sequence. -/
def utf8DecodeOne : List Nat → Option (Nat × List Nat)
  | [] => none
  | b :: bs =>
    if b < 128 then some (b, bs)
    else if b < 192 then none
    else if b < 224 then
      match bs with
      | b2 :: bs2 =>
        if 128 ≤ b2 ∧ b2 < 192 then some ((b - 192) * 64 + (b2 - 128), bs2) else none
      | [] => none
    else if b < 240 then
      match bs with
      | b2 :: b3 :: bs3 =>
        if (128 ≤ b2 ∧ b2 < 192) ∧ (128 ≤ b3 ∧ b3 < 192) then
          some ((b - 224) * 4096 + (b2 - 128) * 64 + (b3 - 128), bs3)
        else none
      | _ => none
    else
      match bs with
      | b2 :: b3 :: b4 :: bs4 =>
        if (128 ≤ b2 ∧ b2 < 192) ∧ (128 ≤ b3 ∧ b3 < 192) ∧ (128 ≤ b4 ∧ b4 < 192) then
          some ((b - 240) * 262144 + (b2 - 128) * 4096 + (b3 - 128) * 64 + (b4 - 128), bs4)
        else none
      | _ => none

/-- The list `m` occurs contiguously (verbatim) inside `big`. -/
def SubSeg (m big : List Char) : Prop := ∃ x y, big = x ++ m ++ y

-- ===========================================================================
-- Data model (type definitions of the source)
-- ===========================================================================

/-- The two-valued language selector union type of the source. -/
inductive Lang where
  | ja
  | en
deriving DecidableEq

structure JapaneseSentenceResponse where
  sentence_text : List Char
  book_id : List Char
  sentence_id : Nat
  title : List Char
  author : List Char
  char_count : Nat
  card_url : List Char
deriving DecidableEq

structure EnglishSentenceResponse where
  sentence_text : List Char
  book_id : List Char
  sentence_id : Nat
  title : List Char
  author : List Char
  word_count : Nat
deriving DecidableEq

structure ShareContent where
  text : List Char
  url : List Char
deriving DecidableEq

structure XCredentials where
  apiKey : List Char
  apiSecret : List Char
  accessToken : List Char
  accessTokenSecret : List Char
deriving DecidableEq

structure BlueskyCredentials where
  identifier : List Char
  password : List Char
deriving DecidableEq

-- ===========================================================================
-- URL generation functions (source lines: generateShareUrl, generateHashtags,
-- generateJapaneseShareContent, generateEnglishShareContent)
-- ===========================================================================

def generateShareUrl (bookId : List Char) (sentenceId : Nat) (lang : Lang) : List Char :=
  let encodedBookId := encodeURIComponent bookId
  match lang with
  | Lang.en =>
      cs "https://rmc-8.com/shosha/random_shosha_en/?book_id=" ++ encodedBookId ++
        cs "&sentence_id=" ++ natToChars sentenceId
  | Lang.ja =>
      cs "https://rmc-8.com/shosha/random_shosha/?book_id=" ++ encodedBookId ++
        cs "&sentence_id=" ++ natToChars sentenceId

/-- JS global regex replace of every hyphen by the empty string in bookId. -/
def removeHyphens : List Char → List Char
  | [] => []
  | c :: t => if c = '-' then removeHyphens t else c :: removeHyphens t

def generateHashtags (bookId : List Char) (sentenceId : Nat) (lang : Lang) : List Char :=
  let cleanBookId := removeHyphens bookId
  let mainHashtag := if lang = Lang.ja then cs "#ランダム書写" else cs "#random_shosha"
  mainHashtag ++ cs " #" ++ cleanBookId ++ cs "_" ++ natToChars sentenceId

def generateJapaneseShareContent (data : JapaneseSentenceResponse) : ShareContent :=
  let shareUrl := generateShareUrl data.book_id data.sentence_id Lang.ja
  let hashtags := generateHashtags data.book_id data.sentence_id Lang.ja
  let text := cs "『" ++ data.title ++ cs "』" ++ data.author ++ cs "著\n" ++
    hashtags ++ cs "\n" ++ shareUrl
  { text := text, url := shareUrl }

def generateEnglishShareContent (data : EnglishSentenceResponse) : ShareContent :=
  let shareUrl := generateShareUrl data.book_id data.sentence_id Lang.en
  let hashtags := generateHashtags data.book_id data.sentence_id Lang.en
  let text := cs "\"" ++ data.title ++ cs "\" by " ++ data.author ++ cs "\n" ++
    hashtags ++ cs "\n" ++ shareUrl
  { text := text, url := shareUrl }

-- ===========================================================================
-- OAuth 1.0a signature construction (generateOAuthSignature)
-- ===========================================================================

/-- Lexicographic code-unit comparison of JS strings, the default comparator
of `Array.prototype.sort` (codepoint order; identical to UTF-16 order on the
Basic Multilingual Plane). -/
def lexLe : List Char → List Char → Bool
  | [], _ => true
  | _ :: _, [] => false
  | a :: as, b :: bs =>
    if a.toNat < b.toNat then true
    else if b.toNat < a.toNat then false
    else lexLe as bs

/-- Insertion into a lexicographically sorted list of strings. -/
def insertSorted (k : List Char) : List (List Char) → List (List Char)
  | [] => [k]
  | x :: xs => if lexLe k x then k :: x :: xs else x :: insertSorted k xs

/-- JS `Object.keys(params).sort()`: sort the raw keys lexicographically. -/
def sortStrings (ks : List (List Char)) : List (List Char) :=
  ks.foldr insertSorted []

/-- Insertion into a list of pairs sorted lexicographically by first component. -/
def insertPairSorted (p : List Char × List Char) :
    List (List Char × List Char) → List (List Char × List Char)
  | [] => [p]
  | x :: xs => if lexLe p.1 x.1 then p :: x :: xs else x :: insertPairSorted p xs

/-- Sort key-value pairs lexicographically by key. -/
def sortPairs (ps : List (List Char × List Char)) : List (List Char × List Char) :=
  ps.foldr insertPairSorted []

/-- JS `array.join(sep)` with separator `&`. -/
def ampJoin : List (List Char) → List Char
  | [] => []
  | [x] => x
  | x :: y :: xs => x ++ cs "&" ++ ampJoin (y :: xs)

/-- JS object member access `params[key]` over the assoc-list model of a
`Record<string, string>` (keys are distinct in any object literal). -/
def lookupParam (k : List Char) (ps : List (List Char × List Char)) : List Char :=
  (ps.lookup k).getD []

/-- Source: `Object.keys(params).sort().map(key => enc(key)=enc(params[key])).join('&')`. -/
def oauthSortedParams (params : List (List Char × List Char)) : List Char :=
  ampJoin ((sortStrings (params.map Prod.fst)).map
    (fun k => encodeURIComponent k ++ cs "=" ++ encodeURIComponent (lookupParam k params)))

/-- JS `method.toUpperCase()` restricted to ASCII (HTTP methods are ASCII). -/
def toUpperAscii (s : List Char) : List Char := s.map Char.toUpper

/-- Source: `[method.toUpperCase(), enc(url), enc(sortedParams)].join('&')`. -/
def signatureBaseString (method url : List Char)
    (params : List (List Char × List Char)) : List Char :=
  ampJoin [toUpperAscii method, encodeURIComponent url,
    encodeURIComponent (oauthSortedParams params)]

/-- Source: signingKey = enc(consumerSecret) + an ampersand + enc(tokenSecret). -/
def oauthSigningKey (consumerSecret tokenSecret : List Char) : List Char :=
  encodeURIComponent consumerSecret ++ cs "&" ++ encodeURIComponent tokenSecret

/-- generateOAuthSignature with the external HMAC-SHA1-and-base64 primitive
abstracted as `sign` (it is applied to the base string and the signing key
exactly as in the source; its internals are opaque platform code). -/
def generateOAuthSignature (sign : List Char → List Char → List Char)
    (method url : List Char) (params : List (List Char × List Char))
    (consumerSecret tokenSecret : List Char) : List Char :=
  sign (signatureBaseString method url params) (oauthSigningKey consumerSecret tokenSecret)

/-- Modelled from the spec: strict RFC 3986 percent-encoding, where only the
unreserved characters (ASCII alphanumerics and hyphen, period, underscore,
tilde) are left unencoded.  This is the spec-side comparison definition for
the refinement claim about `generateOAuthSignature`; the source itself uses
JS `encodeURIComponent`. -/
def specRfc3986Unreserved (c : Char) : Bool :=
  let v := c.toNat
  (48 ≤ v && v ≤ 57) || (65 ≤ v && v ≤ 90) || (97 ≤ v && v ≤ 122) ||
  v == 45 || v == 46 || v == 95 || v == 126

/-- Modelled from the spec: percent-encode a string per RFC 3986. -/
def specRfc3986Encode (s : List Char) : List Char :=
  s.flatMap (fun c =>
    if specRfc3986Unreserved c then [c] else percentTriples (utf8Bytes c))

/-- Modelled from the spec: the parameter string as the spec words it —
percent-encode every key and value per RFC 3986, sort entries
lexicographically by the encoded key, join as key=value pairs with
ampersands. -/
def specParamString (params : List (List Char × List Char)) : List Char :=
  ampJoin ((sortPairs (params.map
      (fun p => (specRfc3986Encode p.1, specRfc3986Encode p.2)))).map
    (fun p => p.1 ++ cs "=" ++ p.2))

-- ===========================================================================
-- Rich-text facet extraction (extractFacets)
-- ===========================================================================

/-- One feature of a facet: a link feature carrying `uri`, or a tag feature
carrying `tag` (the dollar-type discriminators are constant in the source). -/
inductive FacetFeature where
  | link (uri : List Char)
  | tag (tagValue : List Char)
deriving DecidableEq

structure Facet where
  byteStart : Nat
  byteEnd : Nat
  features : List FacetFeature
deriving DecidableEq

/-- The ECMAScript whitespace class matched by a backslash-s regex: tab
through carriage return, space, NBSP, ogham space, the U+2000 block,
line/paragraph separator, narrow NBSP, mathematical space, ideographic
space, BOM. -/
def jsWhitespace (c : Char) : Bool :=
  let v := c.toNat
  (9 ≤ v && v ≤ 13) || v == 32 || v == 160 || v == 5760 ||
  (8192 ≤ v && v ≤ 8202) || v == 8232 || v == 8233 ||
  v == 8239 || v == 8287 || v == 12288 || v == 65279

/-- Consume the literal `lead` from the front of `l`, returning the remainder. -/
def dropLead : List Char → List Char → Option (List Char)
  | [], l => some l
  | _ :: _, [] => none
  | p :: ps, c :: rest => if c = p then dropLead ps rest else none

/-- One attempt of the source's URL regex (scheme http or https, then a colon
and two slashes, then one or more non-whitespace characters, greedy) anchored
at the start of `l`.  Returns the match and the remainder after it. -/
def urlMatchAt (l : List Char) : Option (List Char × List Char) :=
  match dropLead (cs "https://") l with
  | some rest =>
    let run := rest.takeWhile (fun c => !jsWhitespace c)
    if run = [] then none
    else some (cs "https://" ++ run, rest.dropWhile (fun c => !jsWhitespace c))
  | none =>
    match dropLead (cs "http://") l with
    | some rest =>
      let run := rest.takeWhile (fun c => !jsWhitespace c)
      if run = [] then none
      else some (cs "http://" ++ run, rest.dropWhile (fun c => !jsWhitespace c))
    | none => none

/-- Character class of the source's hashtag regex: ASCII alphanumerics,
underscore, Hiragana, Katakana, CJK Unified Ideographs. -/
def isTagChar (c : Char) : Bool :=
  let v := c.toNat
  (48 ≤ v && v ≤ 57) || (65 ≤ v && v ≤ 90) || (97 ≤ v && v ≤ 122) || v == 95 ||
  (12352 ≤ v && v ≤ 12447) || (12448 ≤ v && v ≤ 12543) || (19968 ≤ v && v ≤ 40959)

/-- One attempt of the source's hashtag regex (a hash sign then one or more
tag characters, greedy) anchored at the start of `l`. -/
def tagMatchAt : List Char → Option (List Char × List Char)
  | [] => none
  | c :: rest =>
    if c = '#' then
      let run := rest.takeWhile isTagChar
      if run = [] then none
      else some ('#' :: run, rest.dropWhile isTagChar)
    else none

/-- The repeated-`exec` loop of a global JS regex: at each position try the
anchored matcher; on a match, record (index, match) and resume after the
match; otherwise advance one character.  `fuel` only drives termination and
is in excess of the number of possible steps at every call site. -/
def scanAux (matchAt : List Char → Option (List Char × List Char)) :
    Nat → Nat → List Char → List (Nat × List Char)
  | 0, _, _ => []
  | _ + 1, _, [] => []
  | fuel + 1, i, c :: rest =>
    match matchAt (c :: rest) with
    | some (m, r) => (i, m) :: scanAux matchAt fuel (i + m.length) r
    | none => scanAux matchAt fuel (i + 1) rest

/-- All matches of a global regex over `text`, as (start index, match) pairs. -/
def scanMatches (matchAt : List Char → Option (List Char × List Char))
    (text : List Char) : List (Nat × List Char) :=
  scanAux matchAt text.length 0 text

/-- Source `extractFacets`: URL matches first, then hashtag matches; for each
match the byte offsets are the UTF-8 byte length of the text before the match
and that plus the UTF-8 byte length of the match. -/
def extractFacets (text : List Char) : List Facet :=
  (scanMatches urlMatchAt text).map (fun p =>
    { byteStart := utf8Len (text.take p.1),
      byteEnd := utf8Len (text.take p.1) + utf8Len p.2,
      features := [FacetFeature.link p.2] })
  ++ (scanMatches tagMatchAt text).map (fun p =>
    { byteStart := utf8Len (text.take p.1),
      byteEnd := utf8Len (text.take p.1) + utf8Len p.2,
      features := [FacetFeature.tag (p.2.drop 1)] })

/-- Decides that `text` has no URL match and no hashtag match at any
position, i.e. contains zero URLs and zero hashtags. -/
def noUrlOrTagMatch (text : List Char) : Bool :=
  (List.range (text.length + 1)).all
    (fun i => (urlMatchAt (text.drop i)).isNone && (tagMatchAt (text.drop i)).isNone)

-- ===========================================================================
-- HTTP model and publishing functions (postToX, createBlueskySession,
-- uploadBlobToBluesky, postToBluesky)
-- ===========================================================================

/-- Outcome of one `UrlFetchApp.fetch` call with `muteHttpExceptions: true`:
either an ordinary response (any status code) or a thrown transport error. -/
inductive HttpOutcome (α : Type) where
  | response (code : Nat) (body : α)
  | exn (msg : List Char)
deriving DecidableEq

/-- Parsed JSON body of a successful `com.atproto.server.createSession` call. -/
structure SessionBody where
  accessJwt : List Char
deriving DecidableEq

/-- Downloaded image: its content type header (`getContentType()`, which JS
sees as a possibly null or empty string). -/
structure ImageBody where
  contentType : Option (List Char)
deriving DecidableEq

/-- Opaque blob reference taken verbatim from an upload response body. -/
structure BlobRef where
  ref : List Char
deriving DecidableEq

/-- Parsed JSON body of a successful `com.atproto.repo.uploadBlob` call. -/
structure UploadBody where
  blob : BlobRef
deriving DecidableEq

/-- The outcomes of the four HTTP calls a single `postToBluesky` invocation
can make, fixed up front (the embedding's model of the external world). -/
structure BskyWorld where
  session : HttpOutcome SessionBody
  image : HttpOutcome ImageBody
  upload : HttpOutcome UploadBody
  createRecord : HttpOutcome (List Char)

/-- External link-preview data of an embed; `thumb` is absent unless a blob
was uploaded (the dollar-type discriminator is constant in the source). -/
structure ExternalData where
  uri : List Char
  title : List Char
  description : List Char
  thumb : Option BlobRef
deriving DecidableEq

/-- The post record submitted to `com.atproto.repo.createRecord`.  `facets`
is an optional field: `none` models the field being absent from the record
object (the source only spreads `{ facets }` in when the list is non-empty),
and `embed` likewise. -/
structure BskyRecord where
  text : List Char
  createdAt : List Char
  facets : Option (List Facet)
  embed : Option ExternalData
deriving DecidableEq

/-- The record object as built inside `postToBluesky` from the extracted
facets and the optional embed. -/
def builtRecord (text now : List Char) (facets : List Facet)
    (embedData : Option ExternalData) : BskyRecord :=
  { text := text, createdAt := now,
    facets := if facets.length > 0 then some facets else none,
    embed := embedData }

/-- Trace of the HTTP calls a `postToBluesky` invocation performs, in order,
with the data each request carries. -/
inductive BskyCall where
  | createSession
  | fetchImage (url : List Char)
  | uploadBlob (mime : List Char)
  | createRecord (record : BskyRecord)
deriving DecidableEq

/-- JS truthiness test of an optional string: `undefined`, `null` and the
empty string are falsy. -/
def jsTruthy (x : Option (List Char)) : Bool :=
  match x with
  | some s => !s.isEmpty
  | none => false

/-- JS `x || d` for an optional string `x`. -/
def jsOrDefault (x : Option (List Char)) (d : List Char) : List Char :=
  match x with
  | some s => if s.isEmpty then d else s
  | none => d

/-- Source `postToX`: builds the JSON payload and the OAuth header, performs
the POST, and maps the outcome: status 201 is success; any other status, or
a caught exception, yields false.  The function is total: no failure escapes. -/
def postToX (text : List Char) (credentials : XCredentials)
    (o : HttpOutcome (List Char)) : Bool :=
  match o with
  | HttpOutcome.response code _ => if code = 201 then true else false
  | HttpOutcome.exn _ => false

/-- Source `createBlueskySession`: POST identifier and password; on status
200 return the `accessJwt` of the parsed body, otherwise (or on a caught
exception) return null. -/
def createBlueskySession (credentials : BlueskyCredentials)
    (o : HttpOutcome SessionBody) : Option (List Char) :=
  match o with
  | HttpOutcome.response code b => if code = 200 then some b.accessJwt else none
  | HttpOutcome.exn _ => none

/-- Source `uploadBlobToBluesky`: download the image (the status of the
download is never checked), take its MIME type or default to image/jpeg,
upload the bytes; on upload status 200 return the response's blob reference,
otherwise (or on a caught exception at either step) return null.  The second
component is the trace of HTTP calls performed. -/
def uploadBlobToBluesky (imageUrl accessJwt : List Char) (w : BskyWorld) :
    Option BlobRef × List BskyCall :=
  match w.image with
  | HttpOutcome.exn _ => (none, [BskyCall.fetchImage imageUrl])
  | HttpOutcome.response _ img =>
    let mimeType := jsOrDefault img.contentType (cs "image/jpeg")
    match w.upload with
    | HttpOutcome.exn _ =>
        (none, [BskyCall.fetchImage imageUrl, BskyCall.uploadBlob mimeType])
    | HttpOutcome.response code up =>
        (if code = 200 then some up.blob else none,
         [BskyCall.fetchImage imageUrl, BskyCall.uploadBlob mimeType])

def defaultOgpTitle : List Char := cs "Random Shosha - 書写のお題"

def defaultOgpDescription : List Char := cs "古典文学の一文を書写のお題として"

/-- Source `postToBluesky`: acquire a session (abort with false on a falsy
token), extract facets, optionally build the external embed (uploading the
OGP image as thumbnail when a share URL and an image URL are both truthy;
a failed upload is swallowed and merely omits `thumb`), build the record and
submit it; status 200 is success, anything else or a caught exception is
false.  The second component is the trace of HTTP calls performed. -/
def postToBluesky (text : List Char) (credentials : BlueskyCredentials)
    (shareUrl ogpTitle ogpDescription ogpImageUrl : Option (List Char))
    (now : List Char) (w : BskyWorld) : Bool × List BskyCall :=
  match createBlueskySession credentials w.session with
  | none => (false, [BskyCall.createSession])
  | some accessJwt =>
    if accessJwt.isEmpty then (false, [BskyCall.createSession])
    else
      let facets := extractFacets text
      let embedAndCalls : Option ExternalData × List BskyCall :=
        match shareUrl with
        | none => (none, [])
        | some su =>
          if su.isEmpty then (none, [])
          else
            let blobAndCalls : Option BlobRef × List BskyCall :=
              match ogpImageUrl with
              | none => (none, [])
              | some iu =>
                if iu.isEmpty then (none, [])
                else uploadBlobToBluesky iu accessJwt w
            (some { uri := su,
                    title := jsOrDefault ogpTitle defaultOgpTitle,
                    description := jsOrDefault ogpDescription defaultOgpDescription,
                    thumb := blobAndCalls.1 },
             blobAndCalls.2)
      let record := builtRecord text now facets embedAndCalls.1
      let ok := match w.createRecord with
        | HttpOutcome.response code _ => if code = 200 then true else false
        | HttpOutcome.exn _ => false
      (ok, BskyCall.createSession :: embedAndCalls.2 ++ [BskyCall.createRecord record])

-- ===========================================================================
-- Theorems
-- ===========================================================================

theorem removeHyphens_eq_filter (l : List Char) :
    removeHyphens l = l.filter (fun c => c != '-') := by
  induction l with
  | nil => rfl
  | cons c t ih =>
    by_cases h : c = '-'
    · subst h
      simp [removeHyphens, ih]
    · simp [removeHyphens, h, ih, List.filter_cons]

/-- C7: for the Japanese sentence record with book_id meian-natsume,
sentence_id 12, title 明暗, author 夏目漱石, the content formatter produces
the hashtag line `#ランダム書写 #meiannatsume_12` and the share URL
`https://rmc-8.com/shosha/random_shosha/?book_id=meian-natsume&sentence_id=12`
(shown as the full golden ShareContent); and in general the hashtag line is
the language-specific primary tag, a space, then a hash sign, the book_id
with all hyphens stripped, an underscore, and the decimal sentence_id. -/
theorem japaneseShareContent_meian_golden_and_hashtag_shape :
    (generateJapaneseShareContent
        { sentence_text := cs "", book_id := cs "meian-natsume", sentence_id := 12,
          title := cs "明暗", author := cs "夏目漱石", char_count := 0, card_url := cs "" }
      = { text := cs "『明暗』夏目漱石著\n#ランダム書写 #meiannatsume_12\nhttps://rmc-8.com/shosha/random_shosha/?book_id=meian-natsume&sentence_id=12",
          url := cs "https://rmc-8.com/shosha/random_shosha/?book_id=meian-natsume&sentence_id=12" })
    ∧ ∀ (bookId : List Char) (sentenceId : Nat) (lang : Lang),
        generateHashtags bookId sentenceId lang
          = (if lang = Lang.ja then cs "#ランダム書写" else cs "#random_shosha")
            ++ cs " #" ++ bookId.filter (fun c => c != '-') ++ cs "_" ++ natToChars sentenceId := by
  constructor
  · decide
  · intro bookId sentenceId lang
    simp [generateHashtags, removeHyphens_eq_filter]

/-- C9: for every sentence record, the ShareContent produced by
`generateJapaneseShareContent` and by `generateEnglishShareContent` has its
`url` field occurring verbatim as a contiguous substring of its `text`
field. -/
theorem shareContent_url_substring_of_text :
    (∀ d : JapaneseSentenceResponse,
      SubSeg (generateJapaneseShareContent d).url (generateJapaneseShareContent d).text) ∧
    (∀ d : EnglishSentenceResponse,
      SubSeg (generateEnglishShareContent d).url (generateEnglishShareContent d).text) := by
  constructor
  · intro d
    refine ⟨cs "『" ++ d.title ++ cs "』" ++ d.author ++ cs "著\n" ++
      generateHashtags d.book_id d.sentence_id Lang.ja ++ cs "\n", [], ?_⟩
    simp [generateJapaneseShareContent]
  · intro d
    refine ⟨cs "\"" ++ d.title ++ cs "\" by " ++ d.author ++ cs "\n" ++
      generateHashtags d.book_id d.sentence_id Lang.en ++ cs "\n", [], ?_⟩
    simp [generateEnglishShareContent]

/-- C3: `postToX` returns true exactly when the HTTP response status is 201;
any other status (for instance a 403 response) and any transport-level
failure yield false.  The embedded function is total, which models that no
exception escapes its boundary: the catch-all branch is the `exn` case. -/
theorem postToX_true_iff_status_201 (text : List Char) (credentials : XCredentials)
    (o : HttpOutcome (List Char)) :
    (postToX text credentials o = true ↔ ∃ body, o = HttpOutcome.response 201 body) ∧
    postToX text credentials (HttpOutcome.response 403 (cs "Forbidden")) = false := by
  refine ⟨⟨?_, ?_⟩, rfl⟩
  · intro h
    cases o with
    | response code body =>
      by_cases hc : code = 201
      · subst hc; exact ⟨body, rfl⟩
      · simp [postToX, hc] at h
    | exn m => simp [postToX] at h
  · rintro ⟨body, rfl⟩
    rfl

theorem dropLead_sound : ∀ (p l r : List Char), dropLead p l = some r → l = p ++ r := by
  intro p
  induction p with
  | nil =>
    intro l r h
    simp [dropLead] at h
    simp [h]
  | cons x xs ih =>
    intro l r h
    cases l with
    | nil => simp [dropLead] at h
    | cons c rest =>
      simp only [dropLead] at h
      by_cases hc : c = x
      · rw [if_pos hc] at h
        subst hc
        have := ih rest r h
        simp [this]
      · rw [if_neg hc] at h
        exact absurd h (by simp)

theorem urlMatchAt_sound (l m r : List Char) (h : urlMatchAt l = some (m, r)) :
    l = m ++ r ∧ m ≠ [] := by
  unfold urlMatchAt at h
  cases h8 : dropLead (cs "https://") l with
  | some rest =>
    rw [h8] at h
    simp only [] at h
    by_cases hrun : rest.takeWhile (fun c => !jsWhitespace c) = []
    · rw [if_pos hrun] at h
      exact absurd h (by simp)
    · rw [if_neg hrun] at h
      have hmr : cs "https://" ++ rest.takeWhile (fun c => !jsWhitespace c) = m ∧
          rest.dropWhile (fun c => !jsWhitespace c) = r := by
        have := Option.some.inj h
        exact ⟨congrArg Prod.fst this, congrArg Prod.snd this⟩
      obtain ⟨hm, hr⟩ := hmr
      constructor
      · rw [← hm, ← hr]
        rw [dropLead_sound _ _ _ h8]
        simp [List.takeWhile_append_dropWhile]
      · rw [← hm]
        simp [cs]
  | none =>
    rw [h8] at h
    simp only [] at h
    cases h7 : dropLead (cs "http://") l with
    | some rest =>
      rw [h7] at h
      simp only [] at h
      by_cases hrun : rest.takeWhile (fun c => !jsWhitespace c) = []
      · rw [if_pos hrun] at h
        exact absurd h (by simp)
      · rw [if_neg hrun] at h
        have hmr : cs "http://" ++ rest.takeWhile (fun c => !jsWhitespace c) = m ∧
            rest.dropWhile (fun c => !jsWhitespace c) = r := by
          have := Option.some.inj h
          exact ⟨congrArg Prod.fst this, congrArg Prod.snd this⟩
        obtain ⟨hm, hr⟩ := hmr
        constructor
        · rw [← hm, ← hr]
          rw [dropLead_sound _ _ _ h7]
          simp [List.takeWhile_append_dropWhile]
        · rw [← hm]
          simp [cs]
    | none =>
      rw [h7] at h
      exact absurd h (by simp)

theorem tagMatchAt_sound (l m r : List Char) (h : tagMatchAt l = some (m, r)) :
    l = m ++ r ∧ ∃ run, m = '#' :: run ∧ run ≠ [] := by
  cases l with
  | nil => exact absurd h (by simp [tagMatchAt])
  | cons c rest =>
    simp only [tagMatchAt] at h
    by_cases hc : c = '#'
    · rw [if_pos hc] at h
      by_cases hrun : rest.takeWhile isTagChar = []
      · rw [if_pos hrun] at h
        exact absurd h (by simp)
      · rw [if_neg hrun] at h
        have hmr : '#' :: rest.takeWhile isTagChar = m ∧ rest.dropWhile isTagChar = r := by
          have := Option.some.inj h
          exact ⟨congrArg Prod.fst this, congrArg Prod.snd this⟩
        obtain ⟨hm, hr⟩ := hmr
        subst hc
        refine ⟨?_, rest.takeWhile isTagChar, hm.symm, hrun⟩
        rw [← hm, ← hr]
        simp [List.takeWhile_append_dropWhile]
    · rw [if_neg hc] at h
      exact absurd h (by simp)

theorem scanAux_sound (matchAt : List Char → Option (List Char × List Char))
    (hma : ∀ l m r, matchAt l = some (m, r) → l = m ++ r) :
    ∀ (fuel i : Nat) (l : List Char) (p : Nat × List Char),
      p ∈ scanAux matchAt fuel i l →
      (∃ pre suf, l = pre ++ p.2 ++ suf ∧ p.1 = i + pre.length) ∧
      ∃ l0 r0, matchAt l0 = some (p.2, r0) := by
  intro fuel
  induction fuel with
  | zero =>
    intro i l p hp
    exact absurd hp (by simp [scanAux])
  | succ fuel ih =>
    intro i l p hp
    cases l with
    | nil => exact absurd hp (by simp [scanAux])
    | cons c rest =>
      simp only [scanAux] at hp
      cases hm : matchAt (c :: rest) with
      | some mr =>
        obtain ⟨m, r⟩ := mr
        rw [hm] at hp
        simp only [List.mem_cons] at hp
        rcases hp with hp | hp
        · subst hp
          exact ⟨⟨[], r, by simpa using hma _ _ _ hm, by simp⟩, c :: rest, r, hm⟩
        · obtain ⟨⟨pre, suf, hl, hi⟩, hex⟩ := ih (i + m.length) r p hp
          refine ⟨⟨m ++ pre, suf, ?_, ?_⟩, hex⟩
          · rw [hma _ _ _ hm, hl]
            simp
          · rw [hi]
            simp
            omega
      | none =>
        rw [hm] at hp
        obtain ⟨⟨pre, suf, hl, hi⟩, hex⟩ := ih (i + 1) rest p hp
        refine ⟨⟨c :: pre, suf, ?_, ?_⟩, hex⟩
        · rw [hl]
          simp
        · rw [hi]
          simp
          omega

/-- C1: for every post text, every URL or hashtag match found by
`extractFacets` has `byteStart` equal to the UTF-8 byte length of the text
preceding the match and `byteEnd` equal to `byteStart` plus the UTF-8 byte
length of the matched substring; in particular every hashtag span satisfies
byteEnd minus byteStart equals the UTF-8 byte length of the hashtag
substring, multi-byte Japanese text included. -/
theorem extractFacets_utf8_byte_offsets (text : List Char) :
    ∀ f ∈ extractFacets text, ∃ pre m suf,
      text = pre ++ m ++ suf ∧
      f.byteStart = utf8Len pre ∧
      f.byteEnd = f.byteStart + utf8Len m ∧
      (f.features = [FacetFeature.link m] ∨
        ∃ run, m = '#' :: run ∧ f.features = [FacetFeature.tag run]) := by
  intro f hf
  simp only [extractFacets, scanMatches, List.mem_append, List.mem_map] at hf
  rcases hf with ⟨p, hp, rfl⟩ | ⟨p, hp, rfl⟩
  · obtain ⟨⟨pre, suf, hl, hi⟩, _⟩ :=
      scanAux_sound urlMatchAt (fun l m r h => (urlMatchAt_sound l m r h).1)
        text.length 0 text p hp
    refine ⟨pre, p.2, suf, hl, ?_, rfl, Or.inl rfl⟩
    have hpre : text.take p.1 = pre := by
      rw [hl, hi]
      simp only [Nat.zero_add, List.append_assoc]
      exact List.take_left pre (p.2 ++ suf)
    simp [hpre]
  · obtain ⟨⟨pre, suf, hl, hi⟩, ⟨l0, r0, hm0⟩⟩ :=
      scanAux_sound tagMatchAt (fun l m r h => (tagMatchAt_sound l m r h).1)
        text.length 0 text p hp
    obtain ⟨_, run, hrun, _⟩ := tagMatchAt_sound l0 p.2 r0 hm0
    refine ⟨pre, p.2, suf, hl, ?_, rfl, Or.inr ⟨run, hrun, ?_⟩⟩
    · have hpre : text.take p.1 = pre := by
        rw [hl, hi]
        simp only [Nat.zero_add, List.append_assoc]
        exact List.take_left pre (p.2 ++ suf)
      simp [hpre]
    · rw [hrun]
      simp

theorem extractFacets_utf8_byte_offsets_witness :
    ∃ pre m suf,
      cs "#あ" = pre ++ m ++ suf ∧
      (Facet.mk 0 4 [FacetFeature.tag (cs "あ")]).byteStart = utf8Len pre ∧
      (Facet.mk 0 4 [FacetFeature.tag (cs "あ")]).byteEnd =
        (Facet.mk 0 4 [FacetFeature.tag (cs "あ")]).byteStart + utf8Len m ∧
      ((Facet.mk 0 4 [FacetFeature.tag (cs "あ")]).features = [FacetFeature.link m] ∨
        ∃ run, m = '#' :: run ∧
          (Facet.mk 0 4 [FacetFeature.tag (cs "あ")]).features = [FacetFeature.tag run]) :=
  extractFacets_utf8_byte_offsets (cs "#あ")
    (Facet.mk 0 4 [FacetFeature.tag (cs "あ")]) (by decide)

theorem scanAux_nil_of_no_match (matchAt : List Char → Option (List Char × List Char)) :
    ∀ (fuel i : Nat) (l : List Char), (∀ j, matchAt (l.drop j) = none) →
      scanAux matchAt fuel i l = [] := by
  intro fuel
  induction fuel with
  | zero => intro i l _; rfl
  | succ fuel ih =>
    intro i l h
    cases l with
    | nil => rfl
    | cons c rest =>
      have h0 := h 0
      simp only [List.drop_zero] at h0
      simp only [scanAux]
      rw [h0]
      exact ih (i + 1) rest (fun j => by simpa using h (j + 1))

/-- C4: for every post text containing zero URLs and zero hashtags (no match
of either regex at any position), `extractFacets` returns the empty span
list and the record built by `postToBluesky` has `facets = none`, modelling
the field being omitted entirely; and whenever `extractFacets` returns a
non-empty list, the record's facets field is exactly that list. -/
theorem facets_field_omitted_iff_empty (text now : List Char)
    (embedData : Option ExternalData) :
    (noUrlOrTagMatch text = true →
      extractFacets text = [] ∧
      (builtRecord text now (extractFacets text) embedData).facets = none) ∧
    (extractFacets text ≠ [] →
      (builtRecord text now (extractFacets text) embedData).facets
        = some (extractFacets text)) := by
  constructor
  · intro h
    have hall : ∀ j, urlMatchAt (text.drop j) = none ∧ tagMatchAt (text.drop j) = none := by
      intro j
      by_cases hj : j ≤ text.length
      · have hji := (List.all_eq_true.mp h) j (List.mem_range.mpr (by omega))
        simp only [Bool.and_eq_true, Option.isNone_iff_eq_none] at hji
        exact hji
      · have hdrop : text.drop j = [] := List.drop_eq_nil_of_le (by omega)
        rw [hdrop]
        exact ⟨rfl, rfl⟩
    have hu : extractFacets text = [] := by
      unfold extractFacets scanMatches
      rw [scanAux_nil_of_no_match _ _ _ _ (fun j => (hall j).1),
        scanAux_nil_of_no_match _ _ _ _ (fun j => (hall j).2)]
      rfl
    exact ⟨hu, by simp [builtRecord, hu]⟩
  · intro h
    have hp : (extractFacets text).length > 0 := List.length_pos.mpr h
    simp [builtRecord, hp]

theorem facets_field_omitted_iff_empty_witness :
    (extractFacets (cs "hello world") = [] ∧
      (builtRecord (cs "hello world") (cs "t") (extractFacets (cs "hello world")) none).facets
        = none) ∧
    (builtRecord (cs "#a") (cs "t") (extractFacets (cs "#a")) none).facets
      = some (extractFacets (cs "#a")) :=
  ⟨(facets_field_omitted_iff_empty (cs "hello world") (cs "t") none).1 (by decide),
   (facets_field_omitted_iff_empty (cs "#a") (cs "t") none).2 (by decide)⟩

/-- C5: `createBlueskySession` yields the access token string exactly when
the session-creation response status is 200, and null (`none`) on any other
status or transport failure; and when the session is unavailable,
`postToBluesky` returns false having performed only the session call (in
particular it never reaches the record-creation call). -/
theorem createBlueskySession_token_iff_200_and_abort :
    (∀ (credentials : BlueskyCredentials) (o : HttpOutcome SessionBody) (jwt : List Char),
        createBlueskySession credentials o = some jwt ↔
          ∃ b, o = HttpOutcome.response 200 b ∧ b.accessJwt = jwt) ∧
    (∀ (text : List Char) (credentials : BlueskyCredentials)
        (shareUrl ogpTitle ogpDescription ogpImageUrl : Option (List Char))
        (now : List Char) (w : BskyWorld),
        createBlueskySession credentials w.session = none →
          postToBluesky text credentials shareUrl ogpTitle ogpDescription ogpImageUrl now w
            = (false, [BskyCall.createSession])) := by
  constructor
  · intro credentials o jwt
    constructor
    · intro h
      cases o with
      | response code b =>
        by_cases hc : code = 200
        · subst hc
          simp [createBlueskySession] at h
          exact ⟨b, rfl, h⟩
        · simp [createBlueskySession, hc] at h
      | exn m => simp [createBlueskySession] at h
    · rintro ⟨b, rfl, rfl⟩
      rfl
  · intro text credentials shareUrl ogpTitle ogpDescription ogpImageUrl now w h
    simp [postToBluesky, h]

theorem createBlueskySession_token_iff_200_and_abort_witness :
    postToBluesky (cs "hi") (BlueskyCredentials.mk (cs "id") (cs "pw"))
        none none none none (cs "now")
        (BskyWorld.mk (HttpOutcome.exn (cs "down")) (HttpOutcome.exn (cs "down"))
          (HttpOutcome.exn (cs "down")) (HttpOutcome.exn (cs "down")))
      = (false, [BskyCall.createSession]) :=
  createBlueskySession_token_iff_200_and_abort.2 (cs "hi")
    (BlueskyCredentials.mk (cs "id") (cs "pw")) none none none none (cs "now")
    (BskyWorld.mk (HttpOutcome.exn (cs "down")) (HttpOutcome.exn (cs "down"))
      (HttpOutcome.exn (cs "down")) (HttpOutcome.exn (cs "down"))) rfl

/-- C6: when `postToBluesky` is given a share URL and an OGP image URL but
the blob upload fails (`uploadBlobToBluesky` returns null), the failure is
swallowed: the record still carries an embed with uri, title and description
but no `thumb`, the publish proceeds to the record-creation call, and it
succeeds on a 200 response. -/
theorem embed_survives_thumbnail_upload_failure
    (text su t d iu now jwt : List Char)
    (credentials : BlueskyCredentials) (w : BskyWorld)
    (hsession : createBlueskySession credentials w.session = some jwt)
    (hjwt : jwt ≠ [])
    (hsu : su ≠ []) (hiu : iu ≠ [])
    (hupload : (uploadBlobToBluesky iu jwt w).1 = none)
    (hrec : ∃ body, w.createRecord = HttpOutcome.response 200 body) :
    postToBluesky text credentials (some su) (some t) (some d) (some iu) now w
      = (true, BskyCall.createSession :: (uploadBlobToBluesky iu jwt w).2
          ++ [BskyCall.createRecord (builtRecord text now (extractFacets text)
              (some (ExternalData.mk su (jsOrDefault (some t) defaultOgpTitle)
                (jsOrDefault (some d) defaultOgpDescription) none)))]) := by
  obtain ⟨body, hb⟩ := hrec
  simp [postToBluesky, hsession, hb, hupload,
    List.isEmpty_iff, hjwt, hsu, hiu]

theorem embed_survives_thumbnail_upload_failure_witness :
    postToBluesky (cs "hi #a") (BlueskyCredentials.mk (cs "id") (cs "pw"))
        (some (cs "https://u")) (some (cs "T")) (some (cs "D")) (some (cs "http://img"))
        (cs "now")
        (BskyWorld.mk (HttpOutcome.response 200 (SessionBody.mk (cs "jwt")))
          (HttpOutcome.exn (cs "neterr"))
          (HttpOutcome.response 200 (UploadBody.mk (BlobRef.mk (cs "b"))))
          (HttpOutcome.response 200 (cs "ok")))
      = (true, BskyCall.createSession ::
          (uploadBlobToBluesky (cs "http://img") (cs "jwt")
            (BskyWorld.mk (HttpOutcome.response 200 (SessionBody.mk (cs "jwt")))
              (HttpOutcome.exn (cs "neterr"))
              (HttpOutcome.response 200 (UploadBody.mk (BlobRef.mk (cs "b"))))
              (HttpOutcome.response 200 (cs "ok")))).2
          ++ [BskyCall.createRecord (builtRecord (cs "hi #a") (cs "now")
              (extractFacets (cs "hi #a"))
              (some (ExternalData.mk (cs "https://u")
                (jsOrDefault (some (cs "T")) defaultOgpTitle)
                (jsOrDefault (some (cs "D")) defaultOgpDescription) none)))]) :=
  embed_survives_thumbnail_upload_failure (cs "hi #a") (cs "https://u") (cs "T") (cs "D")
    (cs "http://img") (cs "now") (cs "jwt") (BlueskyCredentials.mk (cs "id") (cs "pw"))
    (BskyWorld.mk (HttpOutcome.response 200 (SessionBody.mk (cs "jwt")))
      (HttpOutcome.exn (cs "neterr"))
      (HttpOutcome.response 200 (UploadBody.mk (BlobRef.mk (cs "b"))))
      (HttpOutcome.response 200 (cs "ok")))
    rfl (by decide) (by decide) (by decide) rfl ⟨cs "ok", rfl⟩

/-- C10: passing the empty string as share URL behaves exactly like passing
no share URL at all (JS truthiness), so the submitted record has no embed
field and no blob upload is attempted even when an OGP image URL is
supplied: the trace is just the session call and the record-creation call,
and the record's embed is `none`. -/
theorem empty_shareUrl_treated_as_absent
    (text now : List Char) (credentials : BlueskyCredentials)
    (ogpTitle ogpDescription ogpImageUrl : Option (List Char)) (w : BskyWorld) :
    postToBluesky text credentials (some []) ogpTitle ogpDescription ogpImageUrl now w
        = postToBluesky text credentials none ogpTitle ogpDescription ogpImageUrl now w ∧
    (∀ jwt, createBlueskySession credentials w.session = some jwt → jwt ≠ [] →
      ∃ ok, postToBluesky text credentials (some []) ogpTitle ogpDescription ogpImageUrl now w
          = (ok, [BskyCall.createSession,
              BskyCall.createRecord (builtRecord text now (extractFacets text) none)])) := by
  constructor
  · simp [postToBluesky]
  · intro jwt hsession hjwt
    refine ⟨(match w.createRecord with
      | HttpOutcome.response code _ => if code = 200 then true else false
      | HttpOutcome.exn _ => false), ?_⟩
    simp [postToBluesky, hsession, List.isEmpty_iff, hjwt]

theorem empty_shareUrl_treated_as_absent_witness :
    ∃ ok, postToBluesky (cs "hi") (BlueskyCredentials.mk (cs "id") (cs "pw"))
        (some []) none none (some (cs "http://img")) (cs "now")
        (BskyWorld.mk (HttpOutcome.response 200 (SessionBody.mk (cs "jwt")))
          (HttpOutcome.exn (cs "e")) (HttpOutcome.exn (cs "e"))
          (HttpOutcome.response 200 (cs "ok")))
      = (ok, [BskyCall.createSession,
          BskyCall.createRecord (builtRecord (cs "hi") (cs "now")
            (extractFacets (cs "hi")) none)]) :=
  (empty_shareUrl_treated_as_absent (cs "hi") (cs "now")
    (BlueskyCredentials.mk (cs "id") (cs "pw")) none none (some (cs "http://img"))
    (BskyWorld.mk (HttpOutcome.response 200 (SessionBody.mk (cs "jwt")))
      (HttpOutcome.exn (cs "e")) (HttpOutcome.exn (cs "e"))
      (HttpOutcome.response 200 (cs "ok")))).2 (cs "jwt") rfl (by decide)

theorem map_fst_insertPairSorted (p : List Char × List Char) :
    ∀ l, (insertPairSorted p l).map Prod.fst = insertSorted p.1 (l.map Prod.fst) := by
  intro l
  induction l with
  | nil => rfl
  | cons x xs ih =>
    simp only [insertPairSorted, insertSorted, List.map_cons]
    by_cases h : lexLe p.1 x.1
    · simp [h]
    · simp [h, ih]

theorem sortStrings_map_fst (ps : List (List Char × List Char)) :
    sortStrings (ps.map Prod.fst) = (sortPairs ps).map Prod.fst := by
  induction ps with
  | nil => rfl
  | cons p t ih =>
    show insertSorted p.1 (sortStrings (t.map Prod.fst))
      = (insertPairSorted p (sortPairs t)).map Prod.fst
    rw [map_fst_insertPairSorted, ih]

theorem insertPairSorted_perm (p : List Char × List Char) :
    ∀ l, List.Perm (insertPairSorted p l) (p :: l) := by
  intro l
  induction l with
  | nil => exact List.Perm.refl _
  | cons x xs ih =>
    simp only [insertPairSorted]
    by_cases h : lexLe p.1 x.1
    · rw [if_pos h]
    · rw [if_neg h]
      exact List.Perm.trans (List.Perm.cons x ih) (List.Perm.swap p x xs)

theorem sortPairs_perm (ps : List (List Char × List Char)) :
    List.Perm (sortPairs ps) ps := by
  induction ps with
  | nil => exact List.Perm.refl _
  | cons p t ih =>
    exact List.Perm.trans (insertPairSorted_perm p (sortPairs t)) (List.Perm.cons p ih)

theorem lookupParam_eq_of_mem :
    ∀ (ps : List (List Char × List Char)), (ps.map Prod.fst).Nodup →
      ∀ kv ∈ ps, lookupParam kv.1 ps = kv.2 := by
  intro ps
  induction ps with
  | nil =>
    intro _ kv h
    simp at h
  | cons p t ih =>
    intro hnd kv hkv
    obtain ⟨k, v⟩ := p
    simp only [List.map_cons, List.nodup_cons] at hnd
    obtain ⟨hp, hnd'⟩ := hnd
    rcases List.mem_cons.mp hkv with h | h
    · subst h
      simp [lookupParam, List.lookup]
    · have hne : (kv.1 == k) = false := by
        apply beq_eq_false_iff_ne.mpr
        intro he
        exact hp (he ▸ List.mem_map_of_mem Prod.fst h)
      simp only [lookupParam, List.lookup, hne]
      exact ih hnd' kv h

/-- C2 counterexample: the claim as stated fails on the code.  With
parameters whose keys are a tilde and a euro sign and whose first value is
an exclamation mark, the parameter string the code builds (raw-key sort,
`encodeURIComponent`) differs from the spec-worded construction
(RFC 3986 strict encoding, sort by encoded key): the code leaves the
exclamation mark unencoded and orders the tilde key first. -/
theorem oauth_param_string_not_rfc3986 :
    oauthSortedParams [(cs "~", cs "!"), (cs "€", cs "x")]
      ≠ specParamString [(cs "~", cs "!"), (cs "€", cs "x")] := by decide

/-- C2 (amended): `generateOAuthSignature` builds the parameter string by
encoding every key and value with JS `encodeURIComponent` (RFC 3986
unreserved plus `! * ' ( )` left bare) and sorting entries lexicographically
by the raw key; it joins them as key=value pairs with ampersands, forms the
base string as uppercase method, ampersand, encoded URL, ampersand, encoded
parameter string, and signs with encoded consumer secret, ampersand, encoded
token secret. -/
theorem oauth_signature_construction
    (method url consumerSecret tokenSecret : List Char)
    (params : List (List Char × List Char))
    (hnd : (params.map Prod.fst).Nodup) :
    oauthSortedParams params
        = ampJoin ((sortPairs params).map
            (fun p => encodeURIComponent p.1 ++ cs "=" ++ encodeURIComponent p.2)) ∧
    signatureBaseString method url params
        = toUpperAscii method ++ cs "&" ++ encodeURIComponent url ++ cs "&"
          ++ encodeURIComponent (oauthSortedParams params) ∧
    oauthSigningKey consumerSecret tokenSecret
        = encodeURIComponent consumerSecret ++ cs "&" ++ encodeURIComponent tokenSecret := by
  refine ⟨?_, ?_, rfl⟩
  · unfold oauthSortedParams
    rw [sortStrings_map_fst, List.map_map]
    congr 1
    apply List.map_congr_left
    intro p hp
    have hmem : p ∈ params := (sortPairs_perm params).mem_iff.mp hp
    have hl := lookupParam_eq_of_mem params hnd p hmem
    simp [Function.comp, hl]
  · simp [signatureBaseString, ampJoin, List.append_assoc]

theorem oauth_signature_construction_witness :
    oauthSortedParams [(cs "k", cs "v")]
        = ampJoin ((sortPairs [(cs "k", cs "v")]).map
            (fun p => encodeURIComponent p.1 ++ cs "=" ++ encodeURIComponent p.2)) ∧
    signatureBaseString (cs "post") (cs "https://api.twitter.com/2/tweets") [(cs "k", cs "v")]
        = toUpperAscii (cs "post") ++ cs "&"
          ++ encodeURIComponent (cs "https://api.twitter.com/2/tweets") ++ cs "&"
          ++ encodeURIComponent (oauthSortedParams [(cs "k", cs "v")]) ∧
    oauthSigningKey (cs "csec") (cs "tsec")
        = encodeURIComponent (cs "csec") ++ cs "&" ++ encodeURIComponent (cs "tsec") :=
  oauth_signature_construction (cs "post") (cs "https://api.twitter.com/2/tweets")
    (cs "csec") (cs "tsec") [(cs "k", cs "v")] (by decide)

theorem char_toNat_lt (c : Char) : c.toNat < 1114112 := by
  have h := c.valid
  simp only [UInt32.isValidChar, Nat.isValidChar, Char.toNat] at h ⊢
  omega

theorem char_toNat_inj {c d : Char} (h : c.toNat = d.toNat) : c = d := by
  apply Char.ext
  apply UInt32.toNat.inj
  simpa [Char.toNat] using h

theorem utf8Bytes_ne_nil (c : Char) : utf8Bytes c ≠ [] := by
  simp only [utf8Bytes]
  split_ifs <;> simp

theorem utf8Bytes_lt_256 (c : Char) : ∀ b ∈ utf8Bytes c, b < 256 := by
  have hv := char_toNat_lt c
  intro b hb
  simp only [utf8Bytes] at hb
  split_ifs at hb with h1 h2 h3
  · simp at hb
    omega
  · simp at hb
    rcases hb with rfl | rfl <;> omega
  · simp at hb
    rcases hb with rfl | rfl | rfl <;> omega
  · simp at hb
    rcases hb with rfl | rfl | rfl | rfl <;> omega

theorem utf8DecodeOne_utf8Bytes (c : Char) (r : List Nat) :
    utf8DecodeOne (utf8Bytes c ++ r) = some (c.toNat, r) := by
  have hv := char_toNat_lt c
  by_cases h1 : c.toNat < 128
  · have hb : utf8Bytes c = [c.toNat] := by simp [utf8Bytes, h1]
    rw [hb]
    simp [utf8DecodeOne, h1]
  · by_cases h2 : c.toNat < 2048
    · have hb : utf8Bytes c = [192 + c.toNat / 64, 128 + c.toNat % 64] := by
        simp [utf8Bytes, h1, h2]
      rw [hb]
      simp only [List.cons_append, utf8DecodeOne, List.nil_append]
      rw [if_neg (by omega), if_neg (by omega), if_pos (by omega),
        if_pos (by constructor <;> omega)]
      have : (192 + c.toNat / 64 - 192) * 64 + (128 + c.toNat % 64 - 128) = c.toNat := by
        omega
      rw [this]
    · by_cases h3 : c.toNat < 65536
      · have hb : utf8Bytes c =
            [224 + c.toNat / 4096, 128 + c.toNat / 64 % 64, 128 + c.toNat % 64] := by
          simp [utf8Bytes, h1, h2, h3]
        rw [hb]
        simp only [List.cons_append, utf8DecodeOne, List.nil_append]
        rw [if_neg (by omega), if_neg (by omega), if_neg (by omega), if_pos (by omega),
          if_pos (by constructor <;> constructor <;> omega)]
        have : (224 + c.toNat / 4096 - 224) * 4096 + (128 + c.toNat / 64 % 64 - 128) * 64
            + (128 + c.toNat % 64 - 128) = c.toNat := by
          omega
        rw [this]
      · have hb : utf8Bytes c =
            [240 + c.toNat / 262144, 128 + c.toNat / 4096 % 64,
             128 + c.toNat / 64 % 64, 128 + c.toNat % 64] := by
          simp [utf8Bytes, h1, h2, h3]
        rw [hb]
        simp only [List.cons_append, utf8DecodeOne, List.nil_append]
        rw [if_neg (by omega), if_neg (by omega), if_neg (by omega), if_neg (by omega),
          if_pos (by refine ⟨⟨by omega, by omega⟩, ⟨by omega, by omega⟩, by omega, by omega⟩)]
        have : (240 + c.toNat / 262144 - 240) * 262144 + (128 + c.toNat / 4096 % 64 - 128) * 4096
            + (128 + c.toNat / 64 % 64 - 128) * 64 + (128 + c.toNat % 64 - 128) = c.toNat := by
          omega
        rw [this]

theorem utf8Encode_inj : ∀ s1 s2 : List Char, utf8Encode s1 = utf8Encode s2 → s1 = s2 := by
  intro s1
  induction s1 with
  | nil =>
    intro s2 h
    cases s2 with
    | nil => rfl
    | cons c t =>
      exfalso
      have : utf8Encode (c :: t) = [] := h.symm
      simp only [utf8Encode, List.flatMap_cons] at this
      exact utf8Bytes_ne_nil c (List.append_eq_nil.mp this).1
  | cons c1 t1 ih =>
    intro s2 h
    cases s2 with
    | nil =>
      exfalso
      simp only [utf8Encode, List.flatMap_cons, List.flatMap_nil] at h
      exact utf8Bytes_ne_nil c1 (List.append_eq_nil.mp h).1
    | cons c2 t2 =>
      simp only [utf8Encode, List.flatMap_cons] at h
      have h1 := utf8DecodeOne_utf8Bytes c1 (utf8Encode t1)
      have h2 := utf8DecodeOne_utf8Bytes c2 (utf8Encode t2)
      rw [show utf8Bytes c1 ++ utf8Encode t1 = utf8Bytes c2 ++ utf8Encode t2 from h] at h1
      rw [h2] at h1
      have hc := char_toNat_inj (Prod.mk.injEq .. ▸ Option.some.inj h1).1.symm
      have ht := ih t2 (Prod.mk.injEq .. ▸ Option.some.inj h1).2.symm
      rw [hc, ht]

theorem isUriUnescaped_lt_128 {c : Char} (h : isUriUnescaped c = true) : c.toNat < 128 := by
  simp only [isUriUnescaped, Bool.or_eq_true, Bool.and_eq_true, decide_eq_true_eq,
    beq_iff_eq] at h
  generalize hv : c.toNat = v at h ⊢
  rcases h with h | h | h | h | h | h | h | h | h | h | h | h <;> omega

theorem isUriUnescaped_ne_percent {c : Char} (h : isUriUnescaped c = true) : c ≠ '%' := by
  intro he
  subst he
  exact absurd h (by decide)

theorem isUriUnescaped_ne_amp {c : Char} (h : isUriUnescaped c = true) : c ≠ '&' := by
  intro he
  subst he
  exact absurd h (by decide)

theorem hexVal_hexDigit (n : Nat) (h : n < 16) : hexVal (hexDigit n) = some n := by
  interval_cases n <;> decide

theorem hexDigit_ne_percent (n : Nat) : hexDigit n ≠ '%' := by
  unfold hexDigit
  split <;> decide

theorem hexDigit_ne_amp (n : Nat) : hexDigit n ≠ '&' := by
  unfold hexDigit
  split <;> decide

theorem parsePercent_cons_ne (c : Char) (h : ¬c = '%') (l : List Char) :
    parsePercent (c :: l) = (parsePercent l).map (fun t => c.toNat :: t) := by
  match l with
  | [] => simp [parsePercent, h]
  | x :: xs => simp [parsePercent, h]

theorem parsePercent_triples (bs : List Nat) (r : List Char) (hb : ∀ b ∈ bs, b < 256) :
    parsePercent (percentTriples bs ++ r) = (parsePercent r).map (fun t => bs ++ t) := by
  induction bs with
  | nil =>
    simp only [percentTriples, List.flatMap_nil, List.nil_append]
    cases parsePercent r <;> simp
  | cons b t ih =>
    have hb256 : b < 256 := hb b (by simp)
    simp only [percentTriples, List.flatMap_cons, List.cons_append, List.append_assoc,
      List.nil_append]
    simp only [parsePercent, hexVal_hexDigit (b / 16) (by omega),
      hexVal_hexDigit (b % 16) (by omega), List.nil_append]
    rw [show (t.flatMap fun x => ['%', hexDigit (x / 16), hexDigit (x % 16)]) ++ r
        = percentTriples t ++ r from rfl]
    rw [ih (fun x hx => hb x (by simp [hx]))]
    cases parsePercent r with
    | none => rfl
    | some v =>
      have hbb : 16 * (b / 16) + b % 16 = b := by omega
      simp [hbb]

theorem parsePercent_encode (s : List Char) :
    parsePercent (encodeURIComponent s) = some (utf8Encode s) := by
  induction s with
  | nil => rfl
  | cons c t ih =>
    simp only [encodeURIComponent, List.flatMap_cons]
    by_cases h : isUriUnescaped c
    · have he : encodeChar c = [c] := by simp [encodeChar, h]
      rw [he]
      simp only [List.cons_append, List.nil_append]
      rw [parsePercent_cons_ne c (isUriUnescaped_ne_percent h),
        show t.flatMap encodeChar = encodeURIComponent t from rfl, ih]
      have hb : utf8Bytes c = [c.toNat] := by
        simp [utf8Bytes, isUriUnescaped_lt_128 h]
      simp [utf8Encode, hb]
    · have he : encodeChar c = percentTriples (utf8Bytes c) := by simp [encodeChar, h]
      rw [he,
        show t.flatMap encodeChar = encodeURIComponent t from rfl,
        parsePercent_triples _ _ (utf8Bytes_lt_256 c), ih]
      simp [utf8Encode]

theorem encodeURIComponent_inj {a b : List Char}
    (h : encodeURIComponent a = encodeURIComponent b) : a = b := by
  have ha := parsePercent_encode a
  rw [h, parsePercent_encode b] at ha
  exact utf8Encode_inj a b (Option.some.inj ha).symm

theorem amp_not_mem_percentTriples (bs : List Nat) : '&' ∉ percentTriples bs := by
  intro h
  simp only [percentTriples, List.mem_flatMap] at h
  obtain ⟨b, _, hmem⟩ := h
  simp only [List.mem_cons, List.not_mem_nil, or_false] at hmem
  rcases hmem with h | h | h
  · exact absurd h (by decide)
  · exact absurd h.symm (hexDigit_ne_amp (b / 16))
  · exact absurd h.symm (hexDigit_ne_amp (b % 16))

theorem amp_not_mem_encode (s : List Char) : '&' ∉ encodeURIComponent s := by
  intro h
  simp only [encodeURIComponent, List.mem_flatMap] at h
  obtain ⟨c, _, hmem⟩ := h
  by_cases hu : isUriUnescaped c
  · simp only [encodeChar, if_pos hu, List.mem_singleton] at hmem
    exact isUriUnescaped_ne_amp hu hmem.symm
  · simp only [encodeChar, if_neg hu] at hmem
    exact amp_not_mem_percentTriples _ hmem

theorem decDigit_toNat (d : Nat) (h : d < 10) : (decDigit d).toNat = 48 + d := by
  interval_cases d <;> rfl

theorem natToCharsAux_acc (fuel : Nat) :
    ∀ n acc, natToCharsAux fuel n acc = natToCharsAux fuel n [] ++ acc := by
  induction fuel with
  | zero => intro n acc; rfl
  | succ fuel ih =>
    intro n acc
    simp only [natToCharsAux]
    by_cases h : n < 10
    · simp [h]
    · rw [if_neg h, if_neg h, ih (n / 10) (decDigit (n % 10) :: acc),
        ih (n / 10) [decDigit (n % 10)]]
      simp

theorem natToCharsAux_fuel_irrel :
    ∀ fuel1 fuel2 n acc, n < fuel1 → n < fuel2 →
      natToCharsAux fuel1 n acc = natToCharsAux fuel2 n acc := by
  intro fuel1
  induction fuel1 with
  | zero =>
    intro fuel2 n acc h1 _
    omega
  | succ f1 ih =>
    intro fuel2 n acc h1 h2
    cases fuel2 with
    | zero => omega
    | succ f2 =>
      simp only [natToCharsAux]
      by_cases h : n < 10
      · simp [h]
      · rw [if_neg h, if_neg h]
        exact ih f2 (n / 10) _ (by omega) (by omega)

theorem decVal_append_digit (xs : List Char) (d : Char) :
    decVal (xs ++ [d]) = decVal xs * 10 + (d.toNat - 48) := by
  simp [decVal, List.foldl_append]

theorem decVal_natToChars (n : Nat) : decVal (natToChars n) = n := by
  induction n using Nat.strong_induction_on with
  | _ n ih =>
    by_cases h : n < 10
    · have hn : natToChars n = [decDigit n] := by
        simp [natToChars, natToCharsAux, h]
      rw [hn]
      simp [decVal, decDigit_toNat n h]
    · have h1 : natToChars n = natToChars (n / 10) ++ [decDigit (n % 10)] := by
        show natToCharsAux (n + 1) n [] = _
        rw [show natToCharsAux (n + 1) n []
            = natToCharsAux n (n / 10) [decDigit (n % 10)] from by
          simp [natToCharsAux, h]]
        rw [natToCharsAux_acc]
        have := natToCharsAux_fuel_irrel n (n / 10 + 1) (n / 10) [] (by omega) (by omega)
        rw [this]
        rfl
      rw [h1, decVal_append_digit, ih (n / 10) (by omega), decDigit_toNat _ (by omega)]
      omega

theorem natToChars_inj {m n : Nat} (h : natToChars m = natToChars n) : m = n := by
  have hv := congrArg decVal h
  rwa [decVal_natToChars, decVal_natToChars] at hv

theorem append_cons_amp_inj :
    ∀ (xs1 xs2 ys1 ys2 : List Char),
      '&' ∉ xs1 → '&' ∉ xs2 →
      xs1 ++ '&' :: ys1 = xs2 ++ '&' :: ys2 →
      xs1 = xs2 ∧ ys1 = ys2 := by
  intro xs1
  induction xs1 with
  | nil =>
    intro xs2 ys1 ys2 _ h2 h
    cases xs2 with
    | nil => simpa using h
    | cons c t =>
      exfalso
      simp only [List.nil_append, List.cons_append, List.cons.injEq] at h
      exact h2 (by simp [h.1.symm])
  | cons c1 t1 ih =>
    intro xs2 ys1 ys2 h1 h2 h
    cases xs2 with
    | nil =>
      exfalso
      simp only [List.cons_append, List.nil_append, List.cons.injEq] at h
      exact h1 (by simp [h.1])
    | cons c2 t2 =>
      simp only [List.cons_append, List.cons.injEq] at h
      have hrec := ih t2 ys1 ys2 (fun hm => h1 (List.mem_cons_of_mem _ hm))
        (fun hm => h2 (List.mem_cons_of_mem _ hm)) h.2
      exact ⟨by rw [h.1, hrec.1], hrec.2⟩

theorem shareTail_inj (b1 b2 : List Char) (s1 s2 : Nat)
    (h : encodeURIComponent b1 ++ (cs "&sentence_id=" ++ natToChars s1)
       = encodeURIComponent b2 ++ (cs "&sentence_id=" ++ natToChars s2)) :
    b1 = b2 ∧ s1 = s2 := by
  have hcs : ∀ x : List Char, cs "&sentence_id=" ++ x = '&' :: (cs "sentence_id=" ++ x) := by
    intro x
    rfl
  rw [hcs, hcs] at h
  obtain ⟨hb, ht⟩ := append_cons_amp_inj (encodeURIComponent b1) (encodeURIComponent b2)
    (cs "sentence_id=" ++ natToChars s1) (cs "sentence_id=" ++ natToChars s2)
    (amp_not_mem_encode b1) (amp_not_mem_encode b2) h
  refine ⟨encodeURIComponent_inj hb, natToChars_inj ?_⟩
  exact List.append_cancel_left ht

/-- C8: `generateShareUrl` is injective as a function of the triple
(book_id, sentence_id, lang) — distinct triples always yield distinct URL
strings — and for every input the returned URL contains the URL-encoded
book_id and the literal decimal sentence_id as contiguous substrings. -/
theorem generateShareUrl_injective_and_contains :
    (∀ (b1 : List Char) (s1 : Nat) (l1 : Lang) (b2 : List Char) (s2 : Nat) (l2 : Lang),
        generateShareUrl b1 s1 l1 = generateShareUrl b2 s2 l2 →
        b1 = b2 ∧ s1 = s2 ∧ l1 = l2) ∧
    (∀ (b : List Char) (s : Nat) (l : Lang),
        SubSeg (encodeURIComponent b) (generateShareUrl b s l) ∧
        SubSeg (natToChars s) (generateShareUrl b s l)) := by
  constructor
  · intro b1 s1 l1 b2 s2 l2 h
    cases l1 <;> cases l2 <;>
      simp only [generateShareUrl, List.append_assoc] at h
    · obtain ⟨hb, hs⟩ := shareTail_inj b1 b2 s1 s2 (List.append_cancel_left h)
      exact ⟨hb, hs, rfl⟩
    · exfalso
      have h38 := congrArg (fun l : List Char => l[38]?) h
      simp only at h38
      rw [List.getElem?_append_left (by decide), List.getElem?_append_left (by decide)] at h38
      exact absurd h38 (by decide)
    · exfalso
      have h38 := congrArg (fun l : List Char => l[38]?) h
      simp only at h38
      rw [List.getElem?_append_left (by decide), List.getElem?_append_left (by decide)] at h38
      exact absurd h38 (by decide)
    · obtain ⟨hb, hs⟩ := shareTail_inj b1 b2 s1 s2 (List.append_cancel_left h)
      exact ⟨hb, hs, rfl⟩
  · intro b s l
    cases l
    · exact ⟨⟨cs "https://rmc-8.com/shosha/random_shosha/?book_id=",
          cs "&sentence_id=" ++ natToChars s, by simp [generateShareUrl]⟩,
        ⟨cs "https://rmc-8.com/shosha/random_shosha/?book_id=" ++ encodeURIComponent b ++
          cs "&sentence_id=", [], by simp [generateShareUrl]⟩⟩
    · exact ⟨⟨cs "https://rmc-8.com/shosha/random_shosha_en/?book_id=",
          cs "&sentence_id=" ++ natToChars s, by simp [generateShareUrl]⟩,
        ⟨cs "https://rmc-8.com/shosha/random_shosha_en/?book_id=" ++ encodeURIComponent b ++
          cs "&sentence_id=", [], by simp [generateShareUrl]⟩⟩

theorem generateShareUrl_injective_and_contains_witness :
    cs "meian-natsume" = cs "meian-natsume" ∧ 12 = 12 ∧ Lang.ja = Lang.ja :=
  generateShareUrl_injective_and_contains.1 (cs "meian-natsume") 12 Lang.ja
    (cs "meian-natsume") 12 Lang.ja rfl
